import Mathlib

/-!
Verification of the rate-limited batch dispatcher (Go sources `main.go`,
`main_test.go`).  The data model and operations below are shallow embeddings
of the Go code: machine loops become fuel-indexed functions (so that a loop
that genuinely diverges is visible as fuel exhaustion), time is modelled
discretely by ticker events, and the downstream service is modelled by an
explicit state record.
-/

namespace BatchService

/-- Item mirrors Go `type Item struct{}`: an opaque unit of work with no
contents. -/
inductive Item where
  | mk
  deriving DecidableEq, Repr

/-- Batch mirrors Go `type Batch []Item`. -/
abbrev Batch := List Item

/-- Observable events of the asynchronous worker goroutine spawned by
`Client.Run` (main.go lines 59-77): a call `service.Process(ctx, subBatch)`
carrying the sub-batch, a `log.Printf` of a processing failure carrying the
logged index `i+1`, and a receive from the period ticker `<-ticker.C`. -/
inductive Event where
  | send (sub : Batch)
  | logErr (idx : Nat)
  | tick
  deriving DecidableEq, Repr

/-- Fuel-indexed embedding of the worker loop of `Client.Run`
(main.go lines 63-76):

    for i := uint64(0); i < uint64(len(batch)); i += c.n {
        end := i + c.n
        if end > uint64(len(batch)) { end = uint64(len(batch)) }
        subBatch := batch[i:end]
        err := c.service.Process(ctx, subBatch)
        if err != nil { log.Printf("... (retry %d): %v", i+1, err) }
        <-ticker.C
    }

`fails i` tells whether `service.Process` returns a non-nil error for the
sub-batch starting at index `i`.  The result is the event trace plus a
completion flag: `false` means the fuel ran out before the loop finished,
which is how genuine divergence of the Go loop shows up for every fuel. -/
def workerFuel (batch : Batch) (n : Nat) (fails : Nat → Bool) : Nat → Nat → List Event × Bool
  | 0, _ => ([], false)
  | fuel + 1, i =>
    if i < batch.length then
      let e := min (i + n) batch.length
      let sub := (batch.drop i).take (e - i)
      let evs := Event.send sub ::
        (if fails i then [Event.logErr (i + 1), Event.tick] else [Event.tick])
      let r := workerFuel batch n fails fuel (i + n)
      (evs ++ r.1, r.2)
    else ([], true)

/-- One worker run with enough fuel for any terminating execution of the Go
loop (the loop body runs at most `batch.length` times when `n ≥ 1`). -/
def workerRun (batch : Batch) (n : Nat) (fails : Nat → Bool) : List Event × Bool :=
  workerFuel batch n fails (batch.length + 1) 0

/-- The sequence of sub-batches passed to `service.Process`, in order, read
off a worker trace. -/
def sends (tr : List Event) : List Batch :=
  tr.filterMap fun e => match e with
    | Event.send b => some b
    | _ => none

/-- Recognizer for ticker events. -/
def isTick : Event → Bool
  | Event.tick => true
  | _ => false

/-- Number of period ticks the worker consumed. -/
def countTicks (tr : List Event) : Nat := tr.countP isTick

/-- Specification-level chunking: the list of contiguous `n`-sized slices of
`b` (last slice possibly shorter).  For `n ≥ 1` this is what the worker loop
computes; the `n = 0` guard only makes the function total. -/
def goChunks (n : Nat) (b : Batch) : List Batch :=
  if h : b = [] ∨ n = 0 then []
  else b.take n :: goChunks n (b.drop n)
termination_by b.length
decreasing_by
  simp only [not_or] at h
  have h1 : 0 < b.length := List.length_pos.mpr h.1
  have h2 : 0 < n := Nat.pos_of_ne_zero h.2
  simp only [List.length_drop]
  omega

/-- Total form of the worker trace starting at index `i`, used to state and
prove properties of `workerFuel` (the two agree whenever `n ≥ 1`). -/
def traceFrom (batch : Batch) (n : Nat) (fails : Nat → Bool) (i : Nat) : List Event :=
  if h : i < batch.length ∧ 0 < n then
    Event.send ((batch.drop i).take n) ::
      ((if fails i then [Event.logErr (i + 1), Event.tick] else [Event.tick]) ++
        traceFrom batch n fails (i + n))
  else []
termination_by batch.length - i
decreasing_by
  omega

/-- Discrete pacing discipline of a worker trace: the trace is a sequence of
blocks, each a send, optionally a failure log, then exactly one ticker wait
before anything further happens. -/
inductive Paced : List Event → Prop where
  | nil : Paced []
  | sendTick (sub : Batch) (rest : List Event) :
      Paced rest → Paced (Event.send sub :: Event.tick :: rest)
  | sendLogTick (sub : Batch) (j : Nat) (rest : List Event) :
      Paced rest → Paced (Event.send sub :: Event.logErr j :: Event.tick :: rest)

@[simp] lemma sends_nil : sends [] = [] := rfl

@[simp] lemma sends_cons_send (b : Batch) (tr : List Event) :
    sends (Event.send b :: tr) = b :: sends tr := rfl

@[simp] lemma sends_cons_log (j : Nat) (tr : List Event) :
    sends (Event.logErr j :: tr) = sends tr := rfl

@[simp] lemma sends_cons_tick (tr : List Event) :
    sends (Event.tick :: tr) = sends tr := rfl

@[simp] lemma sends_append (t1 t2 : List Event) :
    sends (t1 ++ t2) = sends t1 ++ sends t2 := by
  simp [sends, List.filterMap_append]

@[simp] lemma countTicks_nil : countTicks [] = 0 := rfl

@[simp] lemma countTicks_cons_send (b : Batch) (tr : List Event) :
    countTicks (Event.send b :: tr) = countTicks tr := by
  simp [countTicks, List.countP_cons, isTick]

@[simp] lemma countTicks_cons_log (j : Nat) (tr : List Event) :
    countTicks (Event.logErr j :: tr) = countTicks tr := by
  simp [countTicks, List.countP_cons, isTick]

@[simp] lemma countTicks_cons_tick (tr : List Event) :
    countTicks (Event.tick :: tr) = countTicks tr + 1 := by
  simp [countTicks, List.countP_cons, isTick]

@[simp] lemma countTicks_append (t1 t2 : List Event) :
    countTicks (t1 ++ t2) = countTicks t1 + countTicks t2 := by
  simp [countTicks, List.countP_append]

lemma goChunks_nil (n : Nat) : goChunks n [] = [] := by
  rw [goChunks]
  simp

lemma goChunks_cons (n : Nat) (b : Batch) (hb : b ≠ []) (hn : 0 < n) :
    goChunks n b = b.take n :: goChunks n (b.drop n) := by
  rw [goChunks]
  rw [dif_neg (by simp [hb]; omega)]

lemma traceFrom_pos (batch : Batch) (n : Nat) (fails : Nat → Bool) (i : Nat)
    (hi : i < batch.length) (hn : 0 < n) :
    traceFrom batch n fails i =
      Event.send ((batch.drop i).take n) ::
        ((if fails i then [Event.logErr (i + 1), Event.tick] else [Event.tick]) ++
          traceFrom batch n fails (i + n)) := by
  rw [traceFrom]
  rw [dif_pos ⟨hi, hn⟩]

lemma traceFrom_neg (batch : Batch) (n : Nat) (fails : Nat → Bool) (i : Nat)
    (hi : ¬ i < batch.length) :
    traceFrom batch n fails i = [] := by
  rw [traceFrom]
  rw [dif_neg (by simp [hi])]

lemma sub_take_eq (batch : Batch) (n i : Nat) :
    (batch.drop i).take (min (i + n) batch.length - i) = (batch.drop i).take n := by
  apply List.take_eq_take.mpr
  simp only [List.length_drop]
  omega

/-- With `n ≥ 1`, any fuel above the remaining length makes the worker loop
complete, and its trace is `traceFrom`. -/
lemma workerFuel_eq_traceFrom (batch : Batch) (n : Nat) (fails : Nat → Bool) (hn : 0 < n) :
    ∀ fuel i, batch.length - i < fuel →
      workerFuel batch n fails fuel i = (traceFrom batch n fails i, true) := by
  intro fuel
  induction fuel with
  | zero => intro i h; omega
  | succ f ih =>
    intro i h
    by_cases hi : i < batch.length
    · have hrec := ih (i + n) (by omega)
      simp only [workerFuel, hi, if_true, hrec]
      rw [traceFrom_pos batch n fails i hi hn, sub_take_eq]
      simp
    · simp only [workerFuel, hi, if_false]
      rw [traceFrom_neg batch n fails i hi]

lemma goChunks_join_aux (n : Nat) (hn : 0 < n) :
    ∀ (m : Nat) (b : Batch), b.length ≤ m → (goChunks n b).flatten = b := by
  intro m
  induction m with
  | zero =>
    intro b hb
    have : b = [] := List.length_eq_zero.mp (by omega)
    subst this
    simp [goChunks_nil]
  | succ m ih =>
    intro b hb
    by_cases hbe : b = []
    · subst hbe; simp [goChunks_nil]
    · rw [goChunks_cons n b hbe hn]
      have hlen : 0 < b.length := List.length_pos.mpr hbe
      have := ih (b.drop n) (by simp only [List.length_drop]; omega)
      simp [this]

lemma goChunks_join (n : Nat) (hn : 0 < n) (b : Batch) : (goChunks n b).flatten = b :=
  goChunks_join_aux n hn b.length b le_rfl

lemma ceil_div_step (len n : Nat) (h1 : 0 < len) (hn : 0 < n) :
    (len + n - 1) / n = (len - n + n - 1) / n + 1 := by
  rcases le_or_lt n len with h | h
  · have e : len + n - 1 = (len - n + n - 1) + n := by omega
    rw [e, Nat.add_div_right _ hn]
  · have e1 : len - n + n - 1 = n - 1 := by omega
    have e2 : len + n - 1 = (len - 1) + n := by omega
    rw [e1, e2, Nat.add_div_right _ hn,
      Nat.div_eq_of_lt (by omega), Nat.div_eq_of_lt (by omega)]

lemma goChunks_length_aux (n : Nat) (hn : 0 < n) :
    ∀ (m : Nat) (b : Batch), b.length ≤ m →
      (goChunks n b).length = (b.length + n - 1) / n := by
  intro m
  induction m with
  | zero =>
    intro b hb
    have : b = [] := List.length_eq_zero.mp (by omega)
    subst this
    rw [goChunks_nil]
    simp only [List.length_nil]
    exact (Nat.div_eq_of_lt (by omega)).symm
  | succ m ih =>
    intro b hb
    by_cases hbe : b = []
    · subst hbe
      rw [goChunks_nil]
      simp only [List.length_nil]
      exact (Nat.div_eq_of_lt (by omega)).symm
    · rw [goChunks_cons n b hbe hn]
      have hlen : 0 < b.length := List.length_pos.mpr hbe
      have := ih (b.drop n) (by simp only [List.length_drop]; omega)
      simp only [List.length_cons, this, List.length_drop]
      rw [ceil_div_step b.length n hlen hn]

lemma goChunks_length (n : Nat) (hn : 0 < n) (b : Batch) :
    (goChunks n b).length = (b.length + n - 1) / n :=
  goChunks_length_aux n hn b.length b le_rfl

lemma goChunks_length_pos (n : Nat) (hn : 0 < n) (b : Batch) (hb : b ≠ []) :
    0 < (goChunks n b).length := by
  rw [goChunks_cons n b hb hn]
  simp

lemma goChunks_eq_nil_iff (n : Nat) (hn : 0 < n) (b : Batch) :
    goChunks n b = [] ↔ b = [] := by
  constructor
  · intro h
    by_contra hbe
    rw [goChunks_cons n b hbe hn] at h
    exact List.cons_ne_nil _ _ h
  · intro h; subst h; exact goChunks_nil n

lemma goChunks_le_aux (n : Nat) (hn : 0 < n) :
    ∀ (m : Nat) (b : Batch), b.length ≤ m →
      ∀ c ∈ goChunks n b, c.length ≤ n := by
  intro m
  induction m with
  | zero =>
    intro b hb
    have : b = [] := List.length_eq_zero.mp (by omega)
    subst this
    simp [goChunks_nil]
  | succ m ih =>
    intro b hb
    by_cases hbe : b = []
    · subst hbe; simp [goChunks_nil]
    · rw [goChunks_cons n b hbe hn]
      have hlen : 0 < b.length := List.length_pos.mpr hbe
      intro c hc
      rcases List.mem_cons.mp hc with h | h
      · subst h
        simp [List.length_take]
      · exact ih (b.drop n) (by simp only [List.length_drop]; omega) c h

lemma goChunks_le (n : Nat) (hn : 0 < n) (b : Batch) :
    ∀ c ∈ goChunks n b, c.length ≤ n :=
  goChunks_le_aux n hn b.length b le_rfl

lemma goChunks_dropLast_aux (n : Nat) (hn : 0 < n) :
    ∀ (m : Nat) (b : Batch), b.length ≤ m →
      ∀ c ∈ (goChunks n b).dropLast, c.length = n := by
  intro m
  induction m with
  | zero =>
    intro b hb
    have : b = [] := List.length_eq_zero.mp (by omega)
    subst this
    simp [goChunks_nil]
  | succ m ih =>
    intro b hb
    by_cases hbe : b = []
    · subst hbe; simp [goChunks_nil]
    · rw [goChunks_cons n b hbe hn]
      have hlen : 0 < b.length := List.length_pos.mpr hbe
      by_cases htl : goChunks n (b.drop n) = []
      · simp [htl]
      · rw [List.dropLast_cons_of_ne_nil htl]
        intro c hc
        rcases List.mem_cons.mp hc with h | h
        · subst h
          have hdrop : b.drop n ≠ [] := by
            intro hd
            exact htl (by rw [hd]; exact goChunks_nil n)
          have : n < b.length := by
            by_contra hcon
            exact hdrop (List.drop_eq_nil_of_le (by omega))
          simp [List.length_take]
          omega
        · exact ih (b.drop n) (by simp only [List.length_drop]; omega) c h

lemma goChunks_dropLast (n : Nat) (hn : 0 < n) (b : Batch) :
    ∀ c ∈ (goChunks n b).dropLast, c.length = n :=
  goChunks_dropLast_aux n hn b.length b le_rfl

lemma traceFrom_sends_aux (batch : Batch) (n : Nat) (fails : Nat → Bool) (hn : 0 < n) :
    ∀ (m i : Nat), batch.length - i ≤ m →
      sends (traceFrom batch n fails i) = goChunks n (batch.drop i) := by
  intro m
  induction m with
  | zero =>
    intro i h
    have hi : ¬ i < batch.length := by omega
    rw [traceFrom_neg batch n fails i hi, sends_nil,
      List.drop_eq_nil_of_le (by omega), goChunks_nil]
  | succ m ih =>
    intro i h
    by_cases hi : i < batch.length
    · rw [traceFrom_pos batch n fails i hi hn]
      have hdrop : batch.drop i ≠ [] := by
        intro hd
        have := List.drop_eq_nil_iff.mp hd
        omega
      rw [goChunks_cons n (batch.drop i) hdrop hn, List.drop_drop]
      have hrec := ih (i + n) (by omega)
      cases hf : fails i <;> simp [hf, hrec]
    · rw [traceFrom_neg batch n fails i hi, sends_nil,
        List.drop_eq_nil_of_le (by omega), goChunks_nil]

lemma traceFrom_sends (batch : Batch) (n : Nat) (fails : Nat → Bool) (hn : 0 < n) :
    sends (traceFrom batch n fails 0) = goChunks n batch := by
  have := traceFrom_sends_aux batch n fails hn batch.length 0 (by omega)
  simpa using this

lemma traceFrom_paced_aux (batch : Batch) (n : Nat) (fails : Nat → Bool) (hn : 0 < n) :
    ∀ (m i : Nat), batch.length - i ≤ m → Paced (traceFrom batch n fails i) := by
  intro m
  induction m with
  | zero =>
    intro i h
    rw [traceFrom_neg batch n fails i (by omega)]
    exact Paced.nil
  | succ m ih =>
    intro i h
    by_cases hi : i < batch.length
    · rw [traceFrom_pos batch n fails i hi hn]
      have hrec := ih (i + n) (by omega)
      cases hf : fails i
      · simpa [hf] using Paced.sendTick _ _ hrec
      · simpa [hf] using Paced.sendLogTick _ _ _ hrec
    · rw [traceFrom_neg batch n fails i hi]
      exact Paced.nil

lemma traceFrom_paced (batch : Batch) (n : Nat) (fails : Nat → Bool) (hn : 0 < n) :
    Paced (traceFrom batch n fails 0) :=
  traceFrom_paced_aux batch n fails hn batch.length 0 (by omega)

lemma traceFrom_countTicks_aux (batch : Batch) (n : Nat) (fails : Nat → Bool) (hn : 0 < n) :
    ∀ (m i : Nat), batch.length - i ≤ m →
      countTicks (traceFrom batch n fails i) = (goChunks n (batch.drop i)).length := by
  intro m
  induction m with
  | zero =>
    intro i h
    rw [traceFrom_neg batch n fails i (by omega),
      List.drop_eq_nil_of_le (by omega), goChunks_nil]
    rfl
  | succ m ih =>
    intro i h
    by_cases hi : i < batch.length
    · rw [traceFrom_pos batch n fails i hi hn]
      have hdrop : batch.drop i ≠ [] := by
        intro hd
        have := List.drop_eq_nil_iff.mp hd
        omega
      rw [goChunks_cons n (batch.drop i) hdrop hn, List.drop_drop]
      have hrec := ih (i + n) (by omega)
      cases hf : fails i <;> simp [hf, hrec]
    · rw [traceFrom_neg batch n fails i hi,
        List.drop_eq_nil_of_le (by omega), goChunks_nil]
      rfl

lemma traceFrom_countTicks (batch : Batch) (n : Nat) (fails : Nat → Bool) (hn : 0 < n) :
    countTicks (traceFrom batch n fails 0) = (goChunks n batch).length := by
  have := traceFrom_countTicks_aux batch n fails hn batch.length 0 (by omega)
  simpa using this

lemma traceFrom_ends_tick_aux (batch : Batch) (n : Nat) (fails : Nat → Bool) (hn : 0 < n) :
    ∀ (m i : Nat), batch.length - i ≤ m → i < batch.length →
      ∃ pre, traceFrom batch n fails i = pre ++ [Event.tick] := by
  intro m
  induction m with
  | zero => intro i h hi; omega
  | succ m ih =>
    intro i h hi
    rw [traceFrom_pos batch n fails i hi hn]
    by_cases hnext : i + n < batch.length
    · obtain ⟨pre, hpre⟩ := ih (i + n) (by omega) hnext
      rw [hpre]
      cases hf : fails i
      · exact ⟨Event.send ((batch.drop i).take n) :: Event.tick :: pre, by simp⟩
      · exact ⟨Event.send ((batch.drop i).take n) :: Event.logErr (i + 1) :: Event.tick :: pre,
          by simp⟩
    · rw [traceFrom_neg batch n fails (i + n) hnext]
      cases hf : fails i
      · exact ⟨[Event.send ((batch.drop i).take n)], by simp⟩
      · exact ⟨[Event.send ((batch.drop i).take n), Event.logErr (i + 1)], by simp⟩

lemma traceFrom_ends_tick (batch : Batch) (n : Nat) (fails : Nat → Bool) (hn : 0 < n)
    (hb : batch ≠ []) :
    ∃ pre, traceFrom batch n fails 0 = pre ++ [Event.tick] :=
  traceFrom_ends_tick_aux batch n fails hn batch.length 0 (by omega)
    (List.length_pos.mpr hb)

lemma traceFrom_logErr_mem_aux (batch : Batch) (n : Nat) (fails : Nat → Bool) (hn : 0 < n) :
    ∀ (m i k : Nat), batch.length - i ≤ m → i + k * n < batch.length →
      fails (i + k * n) = true →
      Event.logErr (i + k * n + 1) ∈ traceFrom batch n fails i := by
  intro m
  induction m with
  | zero => intro i k h hk hf; omega
  | succ m ih =>
    intro i k h hk hf
    have hi : i < batch.length := by
      have : i ≤ i + k * n := Nat.le_add_right _ _
      omega
    rw [traceFrom_pos batch n fails i hi hn]
    cases k with
    | zero =>
      simp only [Nat.zero_mul, Nat.add_zero] at hk hf
      simp [hf]
    | succ j =>
      have hidx : i + (j + 1) * n = (i + n) + j * n := by
        rw [Nat.succ_mul]
        omega
      have hmem := ih (i + n) j (by omega)
        (by rw [← hidx]; exact hk) (by rw [← hidx]; exact hf)
      rw [hidx]
      cases hf2 : fails i <;> simp [hf2, hmem]

lemma traceFrom_logErr_mem (batch : Batch) (n : Nat) (fails : Nat → Bool) (hn : 0 < n)
    (k : Nat) (hk : k * n < batch.length) (hf : fails (k * n) = true) :
    Event.logErr (k * n + 1) ∈ traceFrom batch n fails 0 := by
  have := traceFrom_logErr_mem_aux batch n fails hn batch.length 0 k (by omega)
    (by simpa using hk) (by simpa using hf)
  simpa using this

lemma traceFrom_head (batch : Batch) (n : Nat) (fails : Nat → Bool) (hn : 0 < n)
    (hb : batch ≠ []) :
    (traceFrom batch n fails 0).head? = some (Event.send (batch.take n)) := by
  rw [traceFrom_pos batch n fails 0 (List.length_pos.mpr hb) hn]
  simp

lemma workerRun_eq (batch : Batch) (n : Nat) (fails : Nat → Bool) (hn : 0 < n) :
    workerRun batch n fails = (traceFrom batch n fails 0, true) :=
  workerFuel_eq_traceFrom batch n fails hn (batch.length + 1) 0 (by omega)

/-- Outcome of decoding the request body: Go
`decoder.Decode(&items)` on `var items []int` either yields the integer
array or an error message. -/
inductive DecodeResult where
  | ok (items : List Int)
  | err (msg : String)
  deriving DecidableEq, Repr

/-- Embedding of `convertRequestToBatch` (main.go lines 138-154): on a decode
error return the error; otherwise build a batch of `len(items)` empty items
(`batch[i] = Item{}` for every `i`). -/
def convertRequestToBatch (d : DecodeResult) : Except String Batch :=
  match d with
  | DecodeResult.err m => Except.error m
  | DecodeResult.ok items => Except.ok (List.replicate items.length Item.mk)

/-- Observable outcome of `handleRequest` (main.go lines 82-89): the HTTP
status and body actually sent (the first `WriteHeader` wins, so the trailing
`w.WriteHeader(http.StatusOK)` after `http.Error` is a no-op), whether
`client.Process` was called, and the batch it enqueued (`nil`, i.e. the
empty batch, on the error path). -/
structure HandleResult where
  status : Nat
  body : String
  dispatcherCalled : Bool
  enqueued : Batch
  deriving DecidableEq, Repr

/-- Embedding of `handleRequest` (main.go lines 82-89).  Note the Go code
does not return after `http.Error`: it always falls through to
`client.Process(batch)` and `w.WriteHeader(http.StatusOK)`. -/
def handleRequest (d : DecodeResult) : HandleResult :=
  match convertRequestToBatch d with
  | Except.error _ =>
      { status := 400
        body := "convert request to batch error\n"
        dispatcherCalled := true
        enqueued := [] }
  | Except.ok batch =>
      { status := 200
        body := ""
        dispatcherCalled := true
        enqueued := batch }

/-- Instrumented state of the external service (`Service` interface plus the
`dummyService`-style implementations): the limits it reports, how many times
`GetLimits` was called, and the batches passed to `Process`. -/
structure ServiceState where
  n : Nat
  p : Nat
  getLimitsCalls : Nat
  processed : List Batch
  deriving DecidableEq, Repr

/-- Embedding of `Service.GetLimits`: returns the limits pair and counts the
call. -/
def getLimits (s : ServiceState) : (Nat × Nat) × ServiceState :=
  ((s.n, s.p), { s with getLimitsCalls := s.getLimitsCalls + 1 })

/-- Embedding of `Service.Process` as seen by the service state: it records
the batch it was handed. -/
def serviceProcess (s : ServiceState) (b : Batch) : ServiceState :=
  { s with processed := s.processed ++ [b] }

/-- Client mirrors Go `type Client struct` (main.go lines 29-34): the cached
limits pair and the queue of submitted batches. -/
structure Client where
  n : Nat
  p : Nat
  queue : List Batch
  deriving DecidableEq, Repr

/-- Embedding of `NewClient` (main.go lines 37-45): call `GetLimits` once and
cache the pair. -/
def newClient (s : ServiceState) : Client × ServiceState :=
  let r := getLimits s
  ({ n := r.1.1, p := r.1.2, queue := [] }, r.2)

/-- Embedding of `Client.Process` (main.go lines 48-50): enqueue the batch;
the cached limits are untouched. -/
def clientProcess (c : Client) (b : Batch) : Client :=
  { c with queue := c.queue ++ [b] }

/-- The worker loop of `Client.Run` acting on the service state: each
iteration hands one sub-batch to `service.Process`.  `GetLimits` is never
called here, which is visible in the state: only `processed` changes. -/
def workerStep (c : Client) (batch : Batch) : Nat → Nat → ServiceState → Option ServiceState
  | 0, _, _ => none
  | fuel + 1, i, s =>
    if i < batch.length then
      let e := min (i + c.n) batch.length
      workerStep c batch fuel (i + c.n) (serviceProcess s ((batch.drop i).take (e - i)))
    else some s

lemma workerStep_preserves (c : Client) (batch : Batch) :
    ∀ (fuel : Nat) (i : Nat) (s0 s1 : ServiceState),
      workerStep c batch fuel i s0 = some s1 →
      s1.getLimitsCalls = s0.getLimitsCalls ∧ s1.n = s0.n ∧ s1.p = s0.p := by
  intro fuel
  induction fuel with
  | zero => intro i s0 s1 h; exact absurd h (by simp [workerStep])
  | succ f ih =>
    intro i s0 s1 h
    by_cases hi : i < batch.length
    · simp only [workerStep, hi, if_true] at h
      have := ih _ _ _ h
      simpa [serviceProcess] using this
    · simp only [workerStep, hi, if_false, Option.some.injEq] at h
      subst h
      exact ⟨rfl, rfl, rfl⟩

/-- Error taxonomy of the dispatcher: the distinct overload condition
(`ErrBlocked = errors.New("blocked")`, main.go line 14) versus an arbitrary
processor failure carrying its message. -/
inductive DispatchError where
  | blocked
  | processorFailure (msg : String)
  deriving DecidableEq, Repr

/-- The overload sentinel `ErrBlocked` of main.go line 14. -/
def ErrBlocked : DispatchError := DispatchError.blocked

/-- Wall-clock elapsed since the call started, observed just before slice
`k`, as the sum of the processor latencies of the earlier slices. -/
def elapsedBefore (latency : Nat → Nat) (k : Nat) : Nat :=
  ((List.range k).map latency).sum

/-- Elapsed time contributed by slices `k, k+1, ..., k+j-1`. -/
def sumFrom (latency : Nat → Nat) (k j : Nat) : Nat :=
  ((List.range j).map (fun i => latency (k + i))).sum

lemma sumFrom_zero (latency : Nat → Nat) (k : Nat) : sumFrom latency k 0 = 0 := rfl

lemma sumFrom_succ (latency : Nat → Nat) (k j : Nat) :
    sumFrom latency k (j + 1) = latency k + sumFrom latency (k + 1) j := by
  simp only [sumFrom, List.range_succ_eq_map, List.map_cons, List.map_map, List.sum_cons,
    Nat.add_zero]
  congr 1
  apply congrArg List.sum
  apply List.map_congr_left
  intro a _
  simp only [Function.comp_apply]
  congr 1
  omega

lemma sumFrom_base (latency : Nat → Nat) (j : Nat) :
    sumFrom latency 0 j = elapsedBefore latency j := by
  simp only [sumFrom, elapsedBefore]
  apply congrArg List.sum
  apply List.map_congr_left
  intro a _
  simp

/-- Modelled from the spec: the synchronous dispatcher `Client.ProcessItems`
is exercised by `TestClient_ProcessItems` (main_test.go) but its code is not
in the sources; this loop follows spec section 4.1.  `its` is the remaining
items, `k` the index of the next slice, `elapsed` the wall-clock time since
`t0`; `bs` is the slice size, `latency k` the processor time for slice `k`
and `fails k` its failure, if any.  Before each slice the elapsed time is
checked against the period `p` and the call aborts with the overload error;
a processor failure is propagated verbatim and stops the remaining slices.
The result is the list of slices actually forwarded to the processor plus
the reported error, if any. -/
def processItemsLoop (bs p : Nat) (latency : Nat → Nat) (fails : Nat → Option String)
    (its : Batch) (k elapsed : Nat) : List Batch × Option DispatchError :=
  if h1 : its = [] then ([], none)
  else if p ≤ elapsed then ([], some DispatchError.blocked)
  else if h2 : bs = 0 then ([], some DispatchError.blocked)
  else
    match fails k with
    | some msg => ([its.take bs], some (DispatchError.processorFailure msg))
    | none =>
      let r := processItemsLoop bs p latency fails (its.drop bs) (k + 1) (elapsed + latency k)
      (its.take bs :: r.1, r.2)
termination_by its.length
decreasing_by
  have h3 : 0 < its.length := List.length_pos.mpr h1
  simp only [List.length_drop]
  omega

/-- Modelled from the spec: `ProcessItems(items)` fetches `(capacity, p)`
from the processor, sets `batchSize = min(capacity, len(items))`, records
`t0` and runs the slicing loop. -/
def ProcessItems (capacity p : Nat) (latency : Nat → Nat) (fails : Nat → Option String)
    (items : Batch) : List Batch × Option DispatchError :=
  processItemsLoop (min capacity items.length) p latency fails items 0 0

/-- HTTP response of the API boundary: status code and body text. -/
structure HttpResponse where
  status : Nat
  body : String
  deriving DecidableEq, Repr

/-- Modelled from the spec: the API handler `ProcessItemsHandler` is
exercised by `TestAPI_ProcessItemsHandler` (main_test.go) but its code is
not in the sources; per spec section 6 and the test expectations it maps a
nil dispatcher error to `200`, the overload error to `429` with the literal
overload message, and any other failure to `500` with that failure's
message. -/
def apiResponse (r : Option DispatchError) : HttpResponse :=
  match r with
  | none => { status := 200, body := "" }
  | some DispatchError.blocked => { status := 429, body := "blocked\n" }
  | some (DispatchError.processorFailure m) => { status := 500, body := m ++ "\n" }

lemma processItemsLoop_nil (bs p : Nat) (latency : Nat → Nat) (fails : Nat → Option String)
    (k elapsed : Nat) :
    processItemsLoop bs p latency fails [] k elapsed = ([], none) := by
  rw [processItemsLoop]
  simp

lemma processItemsLoop_blocked (bs p : Nat) (latency : Nat → Nat) (fails : Nat → Option String)
    (its : Batch) (k elapsed : Nat) (hits : its ≠ []) (he : p ≤ elapsed) :
    processItemsLoop bs p latency fails its k elapsed = ([], some DispatchError.blocked) := by
  rw [processItemsLoop]
  rw [dif_neg (by simp [hits])]
  rw [if_pos he]

lemma processItemsLoop_step (bs p : Nat) (latency : Nat → Nat)
    (its : Batch) (k elapsed : Nat) (hits : its ≠ []) (he : elapsed < p) (hbs : bs ≠ 0) :
    processItemsLoop bs p latency (fun _ => none) its k elapsed =
      ((its.take bs) ::
          (processItemsLoop bs p latency (fun _ => none) (its.drop bs) (k + 1)
            (elapsed + latency k)).1,
        (processItemsLoop bs p latency (fun _ => none) (its.drop bs) (k + 1)
            (elapsed + latency k)).2) := by
  rw [processItemsLoop]
  rw [dif_neg (by simp [hits])]
  rw [if_neg (by omega)]
  rw [dif_neg hbs]

/-- Characterization of the synchronous loop when the processor never fails:
every forwarded slice passed its elapsed-time pre-check; a nil error means
all slices were forwarded; the overload error means the elapsed budget was
reached at the next unsent slice, the forwarded slices are exactly the first
ones in order, and strictly fewer than all of them; no error other than the
overload error can be reported. -/
lemma processItemsLoop_char (bs p : Nat) (latency : Nat → Nat) (hbs : 0 < bs) :
    ∀ (m : Nat) (its : Batch) (k el : Nat), its.length ≤ m →
      (∀ j, j < (processItemsLoop bs p latency (fun _ => none) its k el).1.length →
        el + sumFrom latency k j < p) ∧
      ((processItemsLoop bs p latency (fun _ => none) its k el).2 = none →
        (processItemsLoop bs p latency (fun _ => none) its k el).1 = goChunks bs its) ∧
      ((processItemsLoop bs p latency (fun _ => none) its k el).2 =
          some DispatchError.blocked →
        p ≤ el + sumFrom latency k
            (processItemsLoop bs p latency (fun _ => none) its k el).1.length ∧
        (processItemsLoop bs p latency (fun _ => none) its k el).1 =
          (goChunks bs its).take
            (processItemsLoop bs p latency (fun _ => none) its k el).1.length ∧
        (processItemsLoop bs p latency (fun _ => none) its k el).1.length <
          (goChunks bs its).length) ∧
      ((processItemsLoop bs p latency (fun _ => none) its k el).2 = none ∨
        (processItemsLoop bs p latency (fun _ => none) its k el).2 =
          some DispatchError.blocked) := by
  intro m
  induction m with
  | zero =>
    intro its k el hm
    have hits : its = [] := List.length_eq_zero.mp (by omega)
    subst hits
    rw [processItemsLoop_nil]
    refine ⟨by simp, by simp [goChunks_nil], by simp, Or.inl rfl⟩
  | succ m ih =>
    intro its k el hm
    by_cases hits : its = []
    · subst hits
      rw [processItemsLoop_nil]
      refine ⟨by simp, by simp [goChunks_nil], by simp, Or.inl rfl⟩
    · by_cases he : p ≤ el
      · rw [processItemsLoop_blocked bs p latency (fun _ => none) its k el hits he]
        refine ⟨by simp, by simp, ?_, Or.inr rfl⟩
        intro _
        refine ⟨by simpa [sumFrom_zero] using he, by simp, ?_⟩
        exact goChunks_length_pos bs hbs its hits
      · have hlt : el < p := by omega
        rw [processItemsLoop_step bs p latency its k el hits hlt (by omega)]
        have hlen : 0 < its.length := List.length_pos.mpr hits
        obtain ⟨ih1, ih2, ih3, ih4⟩ :=
          ih (its.drop bs) (k + 1) (el + latency k)
            (by simp only [List.length_drop]; omega)
        have hgc := goChunks_cons bs its hits hbs
        refine ⟨?_, ?_, ?_, ?_⟩
        · intro j hj
          cases j with
          | zero => simpa [sumFrom_zero] using hlt
          | succ j2 =>
            rw [sumFrom_succ]
            have := ih1 j2 (by simpa using hj)
            omega
        · intro h2
          rw [hgc, ih2 h2]
        · intro h3
          obtain ⟨ha, hb, hc⟩ := ih3 h3
          refine ⟨?_, ?_, ?_⟩
          · simp only [List.length_cons]
            rw [sumFrom_succ]
            omega
          · simp only [List.length_cons]
            rw [hgc, List.take_succ_cons]
            exact congrArg (List.cons (its.take bs)) hb
          · simp only [List.length_cons]
            rw [hgc]
            simpa using hc
        · exact ih4

/-- C1: for every batch and every capacity `n ≥ 1`, the asynchronous worker
loop completes, forwarding exactly `ceil(L/n)` contiguous sub-batches in
original order starting at index 0, each of length at most `n`, all but the
last of length exactly `n`, and their concatenation is the original batch. -/
theorem c1_async_worker_slicing (batch : Batch) (n : Nat) (fails : Nat → Bool)
    (hn : 1 ≤ n) :
    (workerRun batch n fails).2 = true ∧
    sends (workerRun batch n fails).1 = goChunks n batch ∧
    (goChunks n batch).length = (batch.length + n - 1) / n ∧
    (goChunks n batch).flatten = batch ∧
    (∀ c ∈ goChunks n batch, c.length ≤ n) ∧
    (∀ c ∈ (goChunks n batch).dropLast, c.length = n) := by
  have h0 : 0 < n := hn
  rw [workerRun_eq batch n fails h0]
  exact ⟨rfl, traceFrom_sends batch n fails h0, goChunks_length n h0 batch,
    goChunks_join n h0 batch, goChunks_le n h0 batch, goChunks_dropLast n h0 batch⟩

/-- C1 witness: a batch of 5 items with capacity 2 is sliced into (2,2,1). -/
theorem c1_async_worker_slicing_witness :
    1 ≤ 2 ∧
    ((workerRun (List.replicate 5 Item.mk) 2 (fun _ => false)).2 = true ∧
      sends (workerRun (List.replicate 5 Item.mk) 2 (fun _ => false)).1 =
        goChunks 2 (List.replicate 5 Item.mk) ∧
      (goChunks 2 (List.replicate 5 Item.mk)).length =
        ((List.replicate 5 Item.mk).length + 2 - 1) / 2 ∧
      (goChunks 2 (List.replicate 5 Item.mk)).flatten = List.replicate 5 Item.mk ∧
      (∀ c ∈ goChunks 2 (List.replicate 5 Item.mk), c.length ≤ 2) ∧
      (∀ c ∈ (goChunks 2 (List.replicate 5 Item.mk)).dropLast, c.length = 2)) :=
  ⟨by decide,
    c1_async_worker_slicing (List.replicate 5 Item.mk) 2 (fun _ => false) (by decide)⟩

/-- C2: the claim asserts the worker loop terminates for cached capacity
`n = 0`; the code does not.  With a non-empty batch and `n = 0` the Go loop
index never advances (`i += 0`), so for every fuel bound the loop is still
incomplete and has sent one empty sub-batch per period: the loop diverges,
repeatedly sending empty sub-batches. -/
theorem c2_zero_capacity_loop_diverges :
    ∀ (fails : Nat → Bool) (fuel : Nat),
      (workerFuel [Item.mk] 0 fails fuel 0).2 = false ∧
      sends (workerFuel [Item.mk] 0 fails fuel 0).1 = List.replicate fuel [] := by
  intro fails fuel
  induction fuel with
  | zero => exact ⟨rfl, rfl⟩
  | succ f ih =>
    have hunf : workerFuel [Item.mk] 0 fails (f + 1) 0 =
        ((Event.send [] ::
            (if fails 0 then [Event.logErr 1, Event.tick] else [Event.tick])) ++
            (workerFuel [Item.mk] 0 fails f 0).1,
          (workerFuel [Item.mk] 0 fails f 0).2) := by
      simp [workerFuel]
    constructor
    · rw [hunf]
      exact ih.1
    · rw [hunf]
      cases hf : fails 0 <;> simp [hf, ih.2, List.replicate_succ]

/-- C3: the claim asserts that on a decode error the boundary responds 400
with the decode error message as body and never invokes the dispatcher.  In
the code `handleRequest` does respond 400, but the body is the fixed string
"convert request to batch error" rather than the decode error message, and
because the function does not return after `http.Error` it still calls
`client.Process` (with the nil batch). -/
theorem c3_bad_request_divergence :
    (handleRequest (DecodeResult.err "invalid character at start of value")).status = 400 ∧
    (handleRequest (DecodeResult.err "invalid character at start of value")).dispatcherCalled
      = true ∧
    (handleRequest (DecodeResult.err "invalid character at start of value")).body ≠
      "invalid character at start of value\n" := by
  refine ⟨rfl, rfl, ?_⟩
  decide

/-- C4: the synchronous dispatcher (modelled from the spec) pre-checks the
elapsed time before each slice: every forwarded slice was within the budget;
with no processor failures the call either forwards all slices (nil error)
or aborts with the distinct overload error `ErrBlocked` exactly when the
elapsed time reached the period, having forwarded only the first slices; and
the boundary maps the overload error, and only it, to 429. -/
theorem c4_sync_overload_maps_429 (capacity p : Nat) (latency : Nat → Nat) (items : Batch)
    (hcap : 1 ≤ capacity) (hne : items ≠ []) :
    (∀ j, j < (ProcessItems capacity p latency (fun _ => none) items).1.length →
        elapsedBefore latency j < p) ∧
    ((ProcessItems capacity p latency (fun _ => none) items).2 = none →
        (ProcessItems capacity p latency (fun _ => none) items).1 =
          goChunks (min capacity items.length) items) ∧
    ((ProcessItems capacity p latency (fun _ => none) items).2 = some ErrBlocked →
        p ≤ elapsedBefore latency
            (ProcessItems capacity p latency (fun _ => none) items).1.length ∧
        (ProcessItems capacity p latency (fun _ => none) items).1 =
          (goChunks (min capacity items.length) items).take
            (ProcessItems capacity p latency (fun _ => none) items).1.length ∧
        (ProcessItems capacity p latency (fun _ => none) items).1.length <
          (goChunks (min capacity items.length) items).length) ∧
    ((ProcessItems capacity p latency (fun _ => none) items).2 = none ∨
      (ProcessItems capacity p latency (fun _ => none) items).2 = some ErrBlocked) ∧
    apiResponse (some ErrBlocked) = { status := 429, body := "blocked\n" } ∧
    (∀ e : Option DispatchError, (apiResponse e).status = 429 → e = some ErrBlocked) := by
  simp only [ProcessItems]
  have hbs : 0 < min capacity items.length := by
    have := List.length_pos.mpr hne
    omega
  obtain ⟨h1, h2, h3, h4⟩ := processItemsLoop_char (min capacity items.length) p latency hbs
    items.length items 0 0 le_rfl
  refine ⟨?_, h2, ?_, h4, rfl, ?_⟩
  · intro j hj
    have hh := h1 j hj
    rw [sumFrom_base] at hh
    omega
  · intro hb2
    obtain ⟨ha, hb, hc⟩ := h3 hb2
    rw [sumFrom_base] at ha
    exact ⟨by omega, hb, hc⟩
  · intro e he
    cases e with
    | none => simp [apiResponse] at he
    | some d =>
      cases d with
      | blocked => rfl
      | processorFailure m => simp [apiResponse] at he

/-- C4 witness: the blocked scenario of `TestClient_ProcessItems`
(capacity 2, period 1ms, four items, 100ms processor latency). -/
theorem c4_sync_overload_maps_429_witness :
    1 ≤ 2 ∧ (List.replicate 4 Item.mk ≠ ([] : Batch)) ∧
    ((∀ j, j < (ProcessItems 2 1 (fun _ => 100) (fun _ => none)
          (List.replicate 4 Item.mk)).1.length →
        elapsedBefore (fun _ => 100) j < 1) ∧
    ((ProcessItems 2 1 (fun _ => 100) (fun _ => none) (List.replicate 4 Item.mk)).2 = none →
        (ProcessItems 2 1 (fun _ => 100) (fun _ => none) (List.replicate 4 Item.mk)).1 =
          goChunks (min 2 (List.replicate 4 Item.mk).length) (List.replicate 4 Item.mk)) ∧
    ((ProcessItems 2 1 (fun _ => 100) (fun _ => none) (List.replicate 4 Item.mk)).2 =
        some ErrBlocked →
        1 ≤ elapsedBefore (fun _ => 100)
            (ProcessItems 2 1 (fun _ => 100) (fun _ => none)
              (List.replicate 4 Item.mk)).1.length ∧
        (ProcessItems 2 1 (fun _ => 100) (fun _ => none) (List.replicate 4 Item.mk)).1 =
          (goChunks (min 2 (List.replicate 4 Item.mk).length)
              (List.replicate 4 Item.mk)).take
            (ProcessItems 2 1 (fun _ => 100) (fun _ => none)
              (List.replicate 4 Item.mk)).1.length ∧
        (ProcessItems 2 1 (fun _ => 100) (fun _ => none)
            (List.replicate 4 Item.mk)).1.length <
          (goChunks (min 2 (List.replicate 4 Item.mk).length)
              (List.replicate 4 Item.mk)).length) ∧
    ((ProcessItems 2 1 (fun _ => 100) (fun _ => none) (List.replicate 4 Item.mk)).2 = none ∨
      (ProcessItems 2 1 (fun _ => 100) (fun _ => none) (List.replicate 4 Item.mk)).2 =
        some ErrBlocked) ∧
    apiResponse (some ErrBlocked) = { status := 429, body := "blocked\n" } ∧
    (∀ e : Option DispatchError, (apiResponse e).status = 429 → e = some ErrBlocked)) :=
  ⟨by decide, by decide,
    c4_sync_overload_maps_429 2 1 (fun _ => 100) (List.replicate 4 Item.mk)
      (by decide) (by decide)⟩

/-- C5: in asynchronous mode a processor failure on the sub-batch starting
at index `k*n` is logged with the index context `k*n + 1` and does not stop
the worker: the loop completes, the sub-batches actually forwarded are the
full chunk list regardless of which sub-batches fail (no retry, no abort),
each send still separated by the normal tick wait; no error value flows back
from the worker. -/
theorem c5_async_failure_logged_continues (batch : Batch) (n : Nat) (fails : Nat → Bool)
    (k : Nat) (hn : 1 ≤ n) (hk : k * n < batch.length) (hf : fails (k * n) = true) :
    (workerRun batch n fails).2 = true ∧
    Event.logErr (k * n + 1) ∈ (workerRun batch n fails).1 ∧
    sends (workerRun batch n fails).1 = goChunks n batch ∧
    (∀ g : Nat → Bool, sends (workerRun batch n g).1 = goChunks n batch) ∧
    Paced (workerRun batch n fails).1 := by
  have h0 : 0 < n := hn
  rw [workerRun_eq batch n fails h0]
  refine ⟨rfl, traceFrom_logErr_mem batch n fails h0 k hk hf,
    traceFrom_sends batch n fails h0, ?_, traceFrom_paced batch n fails h0⟩
  intro g
  rw [workerRun_eq batch n g h0]
  exact traceFrom_sends batch n g h0

/-- C5 witness: batch of 5, capacity 2, every `Process` call failing; the
failure of the second sub-batch (start index 2) is logged as index 3 and all
three sub-batches are still sent. -/
theorem c5_async_failure_logged_continues_witness :
    1 ≤ 2 ∧ 1 * 2 < (List.replicate 5 Item.mk).length ∧ (fun _ : Nat => true) (1 * 2) = true ∧
    ((workerRun (List.replicate 5 Item.mk) 2 (fun _ => true)).2 = true ∧
      Event.logErr (1 * 2 + 1) ∈ (workerRun (List.replicate 5 Item.mk) 2 (fun _ => true)).1 ∧
      sends (workerRun (List.replicate 5 Item.mk) 2 (fun _ => true)).1 =
        goChunks 2 (List.replicate 5 Item.mk) ∧
      (∀ g : Nat → Bool, sends (workerRun (List.replicate 5 Item.mk) 2 g).1 =
        goChunks 2 (List.replicate 5 Item.mk)) ∧
      Paced (workerRun (List.replicate 5 Item.mk) 2 (fun _ => true)).1) :=
  ⟨by decide, by decide, rfl,
    c5_async_failure_logged_continues (List.replicate 5 Item.mk) 2 (fun _ => true) 1
      (by decide) (by decide) rfl⟩

/-- C6: within one asynchronously submitted batch the sub-batches are sent
strictly in original order; in the discrete ticker model every send is
followed by exactly one tick before the next send (one send per period), and
the very first trace event is the send of the first sub-batch, with no
initial wait. -/
theorem c6_async_in_order_one_per_tick (batch : Batch) (n : Nat) (fails : Nat → Bool)
    (hn : 1 ≤ n) :
    (workerRun batch n fails).2 = true ∧
    sends (workerRun batch n fails).1 = goChunks n batch ∧
    Paced (workerRun batch n fails).1 ∧
    (batch ≠ [] →
      (workerRun batch n fails).1.head? = some (Event.send (batch.take n))) := by
  have h0 : 0 < n := hn
  rw [workerRun_eq batch n fails h0]
  exact ⟨rfl, traceFrom_sends batch n fails h0, traceFrom_paced batch n fails h0,
    fun hb => traceFrom_head batch n fails h0 hb⟩

/-- C6 witness: batch of 5, capacity 2, the second sub-batch failing. -/
theorem c6_async_in_order_one_per_tick_witness :
    1 ≤ 2 ∧
    ((workerRun (List.replicate 5 Item.mk) 2 (fun i => decide (i = 2))).2 = true ∧
      sends (workerRun (List.replicate 5 Item.mk) 2 (fun i => decide (i = 2))).1 =
        goChunks 2 (List.replicate 5 Item.mk) ∧
      Paced (workerRun (List.replicate 5 Item.mk) 2 (fun i => decide (i = 2))).1 ∧
      (List.replicate 5 Item.mk ≠ ([] : Batch) →
        (workerRun (List.replicate 5 Item.mk) 2 (fun i => decide (i = 2))).1.head? =
          some (Event.send ((List.replicate 5 Item.mk).take 2)))) :=
  ⟨by decide,
    c6_async_in_order_one_per_tick (List.replicate 5 Item.mk) 2 (fun i => decide (i = 2))
      (by decide)⟩

/-- C7: for the empty batch the worker loop completes with zero iterations,
so `service.Process` is never invoked (no send event), and the boundary
answers 200 on a body decoding to the empty array. -/
theorem c7_empty_input_success :
    ∀ (n : Nat) (fails : Nat → Bool),
      workerRun [] n fails = ([], true) ∧
      sends (workerRun [] n fails).1 = [] ∧
      handleRequest (DecodeResult.ok []) =
        { status := 200, body := "", dispatcherCalled := true, enqueued := [] } := by
  intro n fails
  exact ⟨rfl, rfl, rfl⟩

/-- C8: `NewClient` calls `GetLimits` exactly once and caches the pair; the
submission call keeps the cached pair unchanged, and a worker run never
calls `GetLimits` again (the call counter is unchanged) nor changes the
service's limit fields. -/
theorem c8_limits_read_once_at_construction (s : ServiceState) (c : Client)
    (b batch : Batch) (fuel i : Nat) (s0 : ServiceState) :
    (newClient s).2.getLimitsCalls = s.getLimitsCalls + 1 ∧
    (newClient s).1.n = s.n ∧
    (newClient s).1.p = s.p ∧
    (clientProcess c b).n = c.n ∧
    (clientProcess c b).p = c.p ∧
    (workerStep c batch fuel i s0).elim True
      (fun s1 => s1.getLimitsCalls = s0.getLimitsCalls ∧ s1.n = s0.n ∧ s1.p = s0.p) := by
  refine ⟨rfl, rfl, rfl, rfl, rfl, ?_⟩
  cases h : workerStep c batch fuel i s0 with
  | none => trivial
  | some s1 => exact workerStep_preserves c batch fuel i s0 s1 h

/-- C9: the batch built by the boundary depends only on the length of the
decoded integer array: arrays of equal length yield equal batches, and the
batch is just `length` copies of the empty `Item`. -/
theorem c9_batch_depends_only_on_length (xs ys : List Int) (h : xs.length = ys.length) :
    convertRequestToBatch (DecodeResult.ok xs) = convertRequestToBatch (DecodeResult.ok ys) ∧
    convertRequestToBatch (DecodeResult.ok xs) =
      Except.ok (List.replicate xs.length Item.mk) := by
  constructor
  · simp [convertRequestToBatch, h]
  · rfl

/-- C9 witness: `[1, 2, 3]` and `[40, 50, 60]` yield the same batch. -/
theorem c9_batch_depends_only_on_length_witness :
    ([1, 2, 3] : List Int).length = ([40, 50, 60] : List Int).length ∧
    (convertRequestToBatch (DecodeResult.ok [1, 2, 3]) =
        convertRequestToBatch (DecodeResult.ok [40, 50, 60]) ∧
      convertRequestToBatch (DecodeResult.ok [1, 2, 3]) =
        Except.ok (List.replicate ([1, 2, 3] : List Int).length Item.mk)) :=
  ⟨by decide, c9_batch_depends_only_on_length [1, 2, 3] [40, 50, 60] (by decide)⟩

/-- C10: for a non-empty batch and capacity `n ≥ 1` the worker waits for one
tick after every send, including the last: the trace ends with a tick event
and contains exactly `ceil(L/n)` ticks, one whole period per sub-batch. -/
theorem c10_tick_after_every_send (batch : Batch) (n : Nat) (fails : Nat → Bool)
    (hn : 1 ≤ n) (hne : batch ≠ []) :
    (workerRun batch n fails).2 = true ∧
    (∃ pre, (workerRun batch n fails).1 = pre ++ [Event.tick]) ∧
    countTicks (workerRun batch n fails).1 = (batch.length + n - 1) / n := by
  have h0 : 0 < n := hn
  rw [workerRun_eq batch n fails h0]
  refine ⟨rfl, traceFrom_ends_tick batch n fails h0 hne, ?_⟩
  rw [traceFrom_countTicks batch n fails h0, goChunks_length n h0 batch]

/-- C10 witness: batch of 5, capacity 2: the trace ends in a tick and holds
3 ticks. -/
theorem c10_tick_after_every_send_witness :
    1 ≤ 2 ∧ List.replicate 5 Item.mk ≠ ([] : Batch) ∧
    ((workerRun (List.replicate 5 Item.mk) 2 (fun _ => false)).2 = true ∧
      (∃ pre, (workerRun (List.replicate 5 Item.mk) 2 (fun _ => false)).1 =
        pre ++ [Event.tick]) ∧
      countTicks (workerRun (List.replicate 5 Item.mk) 2 (fun _ => false)).1 =
        ((List.replicate 5 Item.mk).length + 2 - 1) / 2) :=
  ⟨by decide, by decide,
    c10_tick_after_every_send (List.replicate 5 Item.mk) 2 (fun _ => false)
      (by decide) (by decide)⟩

end BatchService
